import Mathlib

/-!
Verification of the blog repository's post listing / search / render pipeline.

Each definition below is a shallow embedding of a function from the
repository's TypeScript source:

* `queryWords`, `titleWords`, `postMatches`, `filterPosts` and the
  `SearchState` machine embed the search view (`app/components/search.tsx`);
* `comparePosts` and `sortPosts` embed the date comparator and the
  `Array.prototype.sort` call of the listing view (`app/components/posts.tsx`,
  the `BlogPosts` component);
* `slugify`, `renderCustomLink` and `codeLanguage` embed the markdown
  overrides of `app/blog/[slug]/page.tsx` (`slugify`, `CustomLink`, `Code`);
* `jsOrElse` and the card renderers embed the summary fallback expression
  `post.metadata.summary || 'No summary available.'`.

JavaScript strings are modelled as `List Char` pipelines over `String.data`;
machine details that the claims do not touch (Unicode case folding outside
ASCII, full `Date` parsing beyond the repository's `YYYY-MM-DD` format) are
documented at the definition that simplifies them.
-/

/-- The character class of JavaScript's regex `\s` (and of `String.prototype.trim`):
ASCII whitespace, NBSP, the Unicode space separators, line/paragraph separators
and the BOM. Used by the search view's `split(/\s+/)`, by `trim()` and by
`slugify`'s `replace(/\s+/g, '-')`. -/
def jsIsSpace (c : Char) : Bool :=
  c = ' ' || c = '\t' || c = '\n' || c = '\x0b' || c = '\x0c' || c = '\r' ||
  c.val = 0xa0 || c.val = 0x1680 || (0x2000 ≤ c.val && c.val ≤ 0x200a) ||
  c.val = 0x2028 || c.val = 0x2029 || c.val = 0x202f || c.val = 0x205f ||
  c.val = 0x3000 || c.val = 0xfeff

/-- The character class `[a-z0-9]`: the complement of the split regex
`[^a-z0-9]` used on (already lowercased) titles in `search.tsx` line 76. -/
def isLowerAlnum (c : Char) : Bool :=
  ('a' ≤ c && c ≤ 'z') || ('0' ≤ c && c ≤ '9')

/-- The character class of JavaScript's regex `\w`: `[A-Za-z0-9_]`.
Used by `slugify`'s `replace(/[^\w\-]+/g, '')`. -/
def isWordChar (c : Char) : Bool :=
  c.isAlpha || c.isDigit || c = '_'

/-- `c = '-'`, the class of `slugify`'s `replace(/\-\-+/g, '-')`. -/
def isHyphen (c : Char) : Bool := c = '-'

/-- Character-wise lowercasing; models `String.prototype.toLowerCase` on the
ASCII range (the only range exercised by the repository's titles and queries). -/
def lowerChars (l : List Char) : List Char := l.map Char.toLower

/-- Prepend a character to the first piece of a split result. -/
def consHead (c : Char) : List (List Char) → List (List Char)
  | [] => [[c]]
  | h :: t => (c :: h) :: t

/-- `splitRuns p l` models JavaScript `String.prototype.split` on a regex of
the form `/[class]+/` where `p` decides the class: the string is cut at each
maximal run of class characters, with an empty piece produced at an end of the
string that touches a run (so `" a b ".split(/\s+/)` is `["", "a", "b", ""]`
and `"".split(/\s+/)` is `[""]`). -/
def splitRuns (p : Char → Bool) : List Char → List (List Char)
  | [] => [[]]
  | c :: cs =>
    if p c then
      match cs with
      | [] => [[], []]
      | c2 :: _ => if p c2 then splitRuns p cs else [] :: splitRuns p cs
    else
      consHead c (splitRuns p cs)

/-- Join pieces with a separator; `joinWith sep [a, b, c] = a ++ sep ++ b ++ sep ++ c`.
Used to model regex replacement of each separator run by a fixed string. -/
def joinWith (sep : List Char) : List (List Char) → List Char
  | [] => []
  | [x] => x
  | x :: xs => x ++ sep ++ joinWith sep xs

/-- Models `String.prototype.trim` (drop `\s` characters from both ends). -/
def jsTrimChars (l : List Char) : List Char :=
  ((l.dropWhile jsIsSpace).reverse.dropWhile jsIsSpace).reverse

/-- String-level `trim()`. -/
def jsTrim (s : String) : String := String.mk (jsTrimChars s.data)

/-- Models `String.prototype.startsWith pat`. -/
def jsStartsWith (pat s : String) : Bool := pat.data.isPrefixOf s.data

/-- Post front-matter as typed in `search.tsx` (`BlogPost.metadata`).
`summary` is an `Option` because the front-matter may omit the field, in which
case the TypeScript value is `undefined`; `none` models that. -/
structure PostMetadata where
  title : String
  publishedAt : String
  summary : Option String
deriving DecidableEq

/-- A post record as served by `/api/blog-posts` and consumed by both views. -/
structure BlogPost where
  metadata : PostMetadata
  slug : String
deriving DecidableEq

/-- Models the JavaScript expression `v || d` for a possibly missing string
`v`: `undefined` (here `none`) and the empty string are falsy, every other
string is returned unchanged. -/
def jsOrElse (v : Option String) (d : String) : String :=
  match v with
  | none => d
  | some s => if s = "" then d else s

/-- The query words of the search filter (`search.tsx` lines 67-70):
`query.toLowerCase().split(/\s+/).filter((word) => word.length > 0)`. -/
def queryWords (query : String) : List String :=
  (((splitRuns jsIsSpace (lowerChars query.data)).map
    (fun l => String.mk l)).filter (fun w => w.length > 0))

/-- The title words of the search filter (`search.tsx` lines 74-76):
`post.metadata.title.toLowerCase().split(/[^a-z0-9]+/)` (no empty-word
filtering on this side). -/
def titleWords (title : String) : List String :=
  (splitRuns (fun c => !(isLowerAlnum c)) (lowerChars title.data)).map
    (fun l => String.mk l)

/-- The match predicate of the search filter (`search.tsx` lines 73-79):
`queryWords.every((queryWord) => titleWords.includes(queryWord))`. -/
def postMatches (query : String) (post : BlogPost) : Bool :=
  (queryWords query).all (fun qw => (titleWords post.metadata.title).contains qw)

/-- The filter effect of the search view (`search.tsx` lines 62-83): an empty
trimmed query produces `[]`, otherwise `allPosts.filter(...)` with the
whole-word match predicate. -/
def filterPosts (query : String) (allPosts : List BlogPost) : List BlogPost :=
  if jsTrim query = "" then [] else allPosts.filter (fun post => postMatches query post)

/-- The effective membership condition of the filter effect: the guard at
`search.tsx` line 64 together with the matcher of lines 73-79. -/
def searchIncluded (query : String) (post : BlogPost) : Bool :=
  if jsTrim query = "" then false else postMatches query post

/-- The title of the specification's worked search example. -/
def whiteHousePost : BlogPost :=
  { metadata :=
      { title := "White House Rules"
        publishedAt := "2025-03-01"
        summary := some "Example post from the specification." }
    slug := "white-house-rules" }

/-- First post of the repository's PyTorch series (content store front-matter). -/
def datasetPost : BlogPost :=
  { metadata :=
      { title := "Getting Started with PyTorch: Understanding Dataset and DataLoader"
        publishedAt := "2025-01-02"
        summary := some "Part 1 of a PyTorch introduction series." }
    slug := "getting-started-with-pytorch-dataset-and-dataloader" }

/-- Second post of the repository's PyTorch series (content store front-matter). -/
def modelPost : BlogPost :=
  { metadata :=
      { title := "Building a PyTorch Model Class: A Step-by-Step Guide"
        publishedAt := "2025-01-05"
        summary := some "Part 2 of the PyTorch introduction series." }
    slug := "building-a-pytorch-model-class" }

/-- A post whose front-matter omits `summary` entirely. -/
def noSummaryPost : BlogPost :=
  { metadata :=
      { title := "Untitled Draft"
        publishedAt := "2025-02-01"
        summary := none }
    slug := "untitled-draft" }

/-- Numeric digit value of an ASCII digit character. -/
def digitVal (c : Char) : Nat := c.toNat - 48

/-- Models the timestamp of `new Date(s)` for the repository's front-matter
date strings, which are all of the ISO form `YYYY-MM-DD`: a valid string maps
to a number that is strictly monotone in the calendar date, any other string
maps to `none`, the model of an Invalid Date (`NaN` timestamp; every `<`/`>`
comparison against it is false, as in JavaScript). -/
def parseDateValue (s : String) : Option Nat :=
  match s.data with
  | [y1, y2, y3, y4, h1, m1, m2, h2, d1, d2] =>
    if y1.isDigit && y2.isDigit && y3.isDigit && y4.isDigit && h1 = '-' &&
        m1.isDigit && m2.isDigit && h2 = '-' && d1.isDigit && d2.isDigit then
      let y := ((digitVal y1 * 10 + digitVal y2) * 10 + digitVal y3) * 10 + digitVal y4
      let m := digitVal m1 * 10 + digitVal m2
      let d := digitVal d1 * 10 + digitVal d2
      if 1 ≤ m && m ≤ 12 && 1 ≤ d && d ≤ 31 then some ((y * 100 + m) * 100 + d)
      else none
    else none
  | _ => none

/-- A post whose `publishedAt` parses as a valid date (every post of the
repository's content store does). -/
def hasValidDate (p : BlogPost) : Bool :=
  (parseDateValue p.metadata.publishedAt).isSome

/-- The date key of a post with a valid date (`0` for invalid dates; only used
under a `hasValidDate` hypothesis). -/
def dateKey (p : BlogPost) : Nat :=
  (parseDateValue p.metadata.publishedAt).getD 0

/-- Models `new Date(a.metadata.publishedAt) > new Date(b.metadata.publishedAt)`
(`posts.tsx` lines 11-13): true exactly when both dates are valid and `a`'s is
strictly later; any comparison involving an Invalid Date (`NaN`) is false. -/
def publishedAfter (a b : BlogPost) : Bool :=
  match parseDateValue a.metadata.publishedAt, parseDateValue b.metadata.publishedAt with
  | some x, some y => decide (y < x)
  | _, _ => false

/-- The sort comparator of the listing view (`posts.tsx` lines 10-17):
`-1` when `a`'s date is strictly after `b`'s, `1` in every other case
(equal, earlier, or unparseable dates); it never returns `0`. -/
def comparePosts (a b : BlogPost) : Int :=
  if publishedAfter a b then -1 else 1

/-- Fuel-indexed stable merge: take the left element while the comparator is
`≤ 0`. The fuel always suffices at the call site (`jsMergeBy` passes the sum
of the lengths), so the `0`-fuel catch-all is unreachable there. -/
def mergeFuel (comp : α → α → Int) : Nat → List α → List α → List α
  | _, [], ys => ys
  | _, x :: xs, [] => x :: xs
  | 0, xs, ys => xs ++ ys
  | n + 1, x :: xs, y :: ys =>
    if comp x y ≤ 0 then x :: mergeFuel comp n xs (y :: ys)
    else y :: mergeFuel comp n (x :: xs) ys

/-- Stable merge of two lists under a JavaScript-style comparator. -/
def jsMergeBy (comp : α → α → Int) (xs ys : List α) : List α :=
  mergeFuel comp (xs.length + ys.length) xs ys

/-- Fuel-indexed top-down merge sort. Fuel equal to the list length suffices
(the recursion halves the length and spends one unit per level), so the
`0`-fuel catch-all is unreachable from `jsSortBy`. -/
def sortFuel (comp : α → α → Int) : Nat → List α → List α
  | _, [] => []
  | _, [a] => [a]
  | 0, l => l
  | n + 1, x :: y :: rest =>
    jsMergeBy comp
      (sortFuel comp n ((x :: y :: rest).take ((rest.length + 2) / 2)))
      (sortFuel comp n ((x :: y :: rest).drop ((rest.length + 2) / 2)))

/-- Models `Array.prototype.sort(comp)` as a stable top-down merge sort (the
algorithm family used by the JavaScript engines' sort). -/
def jsSortBy (comp : α → α → Int) (l : List α) : List α :=
  sortFuel comp l.length l

/-- The sorted post collection produced by the listing view:
`allBlogs.sort((a, b) => ...)` with the date comparator. -/
def sortPosts (posts : List BlogPost) : List BlogPost :=
  jsSortBy comparePosts posts

/-- A rendered summary card: the fields of the listing/search card markup that
the claims talk about. -/
structure Card where
  title : String
  summaryText : String
  href : String
deriving DecidableEq

/-- The card rendered per post by the listing view (`posts.tsx` lines 18-33);
the summary paragraph shows `post.metadata.summary || 'No summary available.'`. -/
def renderListingCard (p : BlogPost) : Card :=
  { title := p.metadata.title
    summaryText := jsOrElse p.metadata.summary "No summary available."
    href := "/blog/" ++ p.slug }

/-- The card rendered per matching post by the search view (`search.tsx`
lines 95-110); the summary line is the same fallback expression. -/
def renderSearchCard (p : BlogPost) : Card :=
  { title := p.metadata.title
    summaryText := jsOrElse p.metadata.summary "No summary available."
    href := "/blog/" ++ p.slug }

/-- The full listing view: sort, then render a card per post. -/
def renderBlogPosts (posts : List BlogPost) : List Card :=
  (sortPosts posts).map renderListingCard

/-- The component state of the search view (`search.tsx` lines 51-53). The
record deliberately has no error field: the component models no error state. -/
structure SearchState where
  query : String
  allPosts : List BlogPost
  filteredPosts : List BlogPost
deriving DecidableEq

/-- The initial state of the search view: empty query, no posts, no results. -/
def initialSearchState : SearchState := ⟨"", [], []⟩

/-- Outcome of the one-shot `fetch('/api/blog-posts')` on mount. -/
inductive FetchResult
  | ok (posts : List BlogPost)
  | err

/-- The filter effect (`search.tsx` lines 62-83): recompute `filteredPosts`
from the current `query` and `allPosts`, touching nothing else. -/
def recomputeFiltered (s : SearchState) : SearchState :=
  { s with filteredPosts := filterPosts s.query s.allPosts }

/-- A keystroke: set the query, then the filter effect reruns. -/
def setQuery (s : SearchState) (q : String) : SearchState :=
  recomputeFiltered { s with query := q }

/-- The fetch effect (`search.tsx` lines 55-60): on success `setAllPosts(data)`
(and the filter effect reruns); the promise chain has no `.catch`, so on
failure nothing runs and the state is unchanged. -/
def applyFetch (s : SearchState) (r : FetchResult) : SearchState :=
  match r with
  | .ok posts => recomputeFiltered { s with allPosts := posts }
  | .err => s

/-- The slug pipeline of `page.tsx` lines 575-584, stage by stage on the
character list: lowercase, trim, each whitespace run to `-` (`replace(/\s+/g,
'-')`), each `&` to `-and-` (`replace(/&/g, '-and-')`), drop every character
outside `[\w-]` (`replace(/[^\w\-]+/g, '')`), collapse hyphen runs
(`replace(/\-\-+/g, '-')`, modelled as rejoining the `-`-runs with one `-`). -/
def slugifyChars (l : List Char) : List Char :=
  let s1 := jsTrimChars (lowerChars l)
  let s2 := joinWith ['-'] (splitRuns jsIsSpace s1)
  let s3 := s2.flatMap (fun c => if c = '&' then ['-', 'a', 'n', 'd', '-'] else [c])
  let s4 := s3.filter (fun c => isWordChar c || c = '-')
  joinWith ['-'] (splitRuns isHyphen s4)

/-- The heading slug function `slugify` of `page.tsx` lines 575-584. -/
def slugify (str : String) : String := String.mk (slugifyChars str.data)

/-- The final slug stage as the specification words it: each run of two or
more hyphens is collapsed into one (a lone hyphen is untouched). Second
formulation of `replace(/\-\-+/g, '-')`, to be proved equal to the one used
in `slugifyChars`. -/
def collapseDoubleHyphens : List Char → List Char
  | [] => []
  | [c] => [c]
  | c1 :: c2 :: rest =>
    if c1 = '-' && c2 = '-' then collapseDoubleHyphens (c2 :: rest)
    else c1 :: collapseDoubleHyphens (c2 :: rest)

/-- The slug pipeline as described by the specification, differing from
`slugifyChars` only in the formulation of the final hyphen-collapsing stage. -/
def slugifySpecChars (l : List Char) : List Char :=
  let s1 := jsTrimChars (lowerChars l)
  let s2 := joinWith ['-'] (splitRuns jsIsSpace s1)
  let s3 := s2.flatMap (fun c => if c = '&' then ['-', 'a', 'n', 'd', '-'] else [c])
  let s4 := s3.filter (fun c => isWordChar c || c = '-')
  collapseDoubleHyphens s4

/-- String-level wrapper of `slugifySpecChars`. -/
def slugifySpec (str : String) : String := String.mk (slugifySpecChars str.data)

/-- The three rendering shapes a link can take in `CustomLink`
(`page.tsx` lines 534-550): a Next.js client navigation, a plain in-page
anchor, or a plain anchor opening a new browsing context. -/
inductive LinkKind
  | clientNav
  | inPageAnchor
  | newWindow
deriving DecidableEq

/-- The attributes of a rendered link that the claims talk about. -/
structure RenderedLink where
  kind : LinkKind
  target : Option String
  rel : Option String
deriving DecidableEq

/-- The `CustomLink` markdown override (`page.tsx` lines 534-550):
`href.startsWith('/')` renders a Next.js `Link`, `href.startsWith('#')` a
plain `<a>`, anything else an `<a target="_blank" rel="noopener noreferrer">`. -/
def renderCustomLink (href : String) : RenderedLink :=
  if jsStartsWith "/" href then
    { kind := .clientNav, target := none, rel := none }
  else if jsStartsWith "#" href then
    { kind := .inPageAnchor, target := none, rel := none }
  else
    { kind := .newWindow, target := some "_blank", rel := some "noopener noreferrer" }

/-- Models `String.prototype.replace(pat, rep)` with a plain-string pattern:
only the first (leftmost) occurrence of `pat` is replaced. -/
def replaceFirst (pat rep : List Char) : List Char → List Char
  | [] => if pat = [] then rep else []
  | c :: cs =>
    if pat.isPrefixOf (c :: cs) then rep ++ (c :: cs).drop pat.length
    else c :: replaceFirst pat rep cs

/-- The language tag computed by the `Code` override (`page.tsx` line 562):
`className ? className.replace('language-', '') : 'python'`. A missing
className and the (falsy) empty className both fall back to `'python'`. -/
def codeLanguage (className : Option String) : String :=
  match className with
  | none => "python"
  | some s =>
    if s = "" then "python"
    else String.mk (replaceFirst "language-".data [] s.data)

/-- The language tag as the claim words it: the className with its
`language-` leading occurrence removed when a className is present (a no-op
when the className does not start with `language-`), `'python'` only when no
className is given. Stated from the claim, for comparison with
`codeLanguage`. -/
def claimLanguage (className : Option String) : String :=
  match className with
  | none => "python"
  | some s =>
    if ("language-".data).isPrefixOf s.data then
      String.mk (s.data.drop ("language-".data).length)
    else s

/-- The argument record of the `hljs.highlight` call in `Code`
(`page.tsx` lines 565-568): the computed language tag, with
`ignoreIllegals: true` so that illegal syntax is skipped, not raised. -/
structure HighlightCall where
  language : String
  ignoreIllegals : Bool
deriving DecidableEq

/-- The highlighter invocation made by the `Code` override. -/
def codeHighlightCall (className : Option String) : HighlightCall :=
  { language := codeLanguage className, ignoreIllegals := true }

/-- Every element of a merge comes from one of the two inputs. -/
lemma mem_mergeFuel {α : Type} {comp : α → α → Int} :
    ∀ (n : Nat) (xs ys : List α) (a : α),
      a ∈ mergeFuel comp n xs ys → a ∈ xs ∨ a ∈ ys := by
  intro n
  induction n with
  | zero =>
    intro xs ys a h
    cases xs <;> cases ys <;> simp_all [mergeFuel]
    tauto
  | succ n ih =>
    intro xs ys a h
    cases xs with
    | nil => simp_all [mergeFuel]
    | cons x xs =>
      cases ys with
      | nil => simp_all [mergeFuel]
      | cons y ys =>
        simp only [mergeFuel] at h
        split at h
        · rcases List.mem_cons.mp h with rfl | h2
          · exact Or.inl (List.mem_cons_self _ _)
          · rcases ih xs (y :: ys) a h2 with h3 | h3
            · exact Or.inl (List.mem_cons_of_mem _ h3)
            · exact Or.inr h3
        · rcases List.mem_cons.mp h with rfl | h2
          · exact Or.inr (List.mem_cons_self _ _)
          · rcases ih (x :: xs) ys a h2 with h3 | h3
            · exact Or.inl h3
            · exact Or.inr (List.mem_cons_of_mem _ h3)

/-- Every element of the sorted output comes from the input. -/
lemma mem_sortFuel {α : Type} {comp : α → α → Int} :
    ∀ (n : Nat) (l : List α) (a : α), a ∈ sortFuel comp n l → a ∈ l := by
  intro n
  induction n with
  | zero =>
    intro l a h
    cases l with
    | nil => simp_all [sortFuel]
    | cons x xs => cases xs <;> simp_all [sortFuel]
  | succ n ih =>
    intro l a h
    cases l with
    | nil => simp_all [sortFuel]
    | cons x xs =>
      cases xs with
      | nil => simp_all [sortFuel]
      | cons y rest =>
        simp only [sortFuel, jsMergeBy] at h
        rcases mem_mergeFuel _ _ _ a h with h2 | h2
        · exact List.take_subset _ _ (ih _ a h2)
        · exact List.drop_subset _ _ (ih _ a h2)

/-- For valid dates, the comparator's strict test is the strict order of keys. -/
lemma publishedAfter_valid {a b : BlogPost}
    (ha : hasValidDate a = true) (hb : hasValidDate b = true) :
    (publishedAfter a b = true) ↔ dateKey b < dateKey a := by
  unfold hasValidDate at ha hb
  unfold publishedAfter dateKey
  cases hpa : parseDateValue a.metadata.publishedAt <;>
    cases hpb : parseDateValue b.metadata.publishedAt <;>
      simp_all

/-- The comparator is `≤ 0` exactly on the strict-after pairs. -/
lemma comparePosts_le_zero {a b : BlogPost} :
    (comparePosts a b ≤ 0) ↔ publishedAfter a b = true := by
  unfold comparePosts
  split <;> simp_all

/-- Merging two lists that are non-increasing in date key, all with valid
dates, yields a non-increasing list. -/
lemma pairwise_mergeFuel :
    ∀ (n : Nat) (xs ys : List BlogPost),
      xs.length + ys.length ≤ n →
      (∀ p ∈ xs, hasValidDate p = true) →
      (∀ p ∈ ys, hasValidDate p = true) →
      xs.Pairwise (fun a b => dateKey b ≤ dateKey a) →
      ys.Pairwise (fun a b => dateKey b ≤ dateKey a) →
      (mergeFuel comparePosts n xs ys).Pairwise (fun a b => dateKey b ≤ dateKey a) := by
  intro n
  induction n with
  | zero =>
    intro xs ys hlen _ _ hx hy
    cases xs <;> cases ys <;> simp_all [mergeFuel]
  | succ n ih =>
    intro xs ys hlen hxv hyv hx hy
    cases xs with
    | nil => simpa [mergeFuel] using hy
    | cons x xs =>
      cases ys with
      | nil => simpa [mergeFuel] using hx
      | cons y ys =>
        have hvx : hasValidDate x = true := hxv x (List.mem_cons_self _ _)
        have hvy : hasValidDate y = true := hyv y (List.mem_cons_self _ _)
        rcases List.pairwise_cons.mp hx with ⟨hx1, hx2⟩
        rcases List.pairwise_cons.mp hy with ⟨hy1, hy2⟩
        simp only [mergeFuel]
        split
        case isTrue hc =>
          have hxy : dateKey y < dateKey x :=
            (publishedAfter_valid hvx hvy).mp (comparePosts_le_zero.mp hc)
          refine List.pairwise_cons.mpr ⟨?_, ?_⟩
          · intro z hz
            rcases mem_mergeFuel n xs (y :: ys) z hz with h2 | h2
            · exact hx1 z h2
            · rcases List.mem_cons.mp h2 with rfl | h3
              · exact Nat.le_of_lt hxy
              · exact Nat.le_trans (hy1 z h3) (Nat.le_of_lt hxy)
          · exact ih xs (y :: ys) (by simp_all; omega)
              (fun p hp => hxv p (List.mem_cons_of_mem _ hp)) hyv hx2 hy
        case isFalse hc =>
          have hpub : publishedAfter x y = false := by
            cases hp : publishedAfter x y
            · rfl
            · exact absurd (comparePosts_le_zero.mpr hp) hc
          have hyx : dateKey x ≤ dateKey y := by
            refine Nat.le_of_not_lt (fun hlt => ?_)
            have := (publishedAfter_valid hvx hvy).mpr hlt
            simp_all
          refine List.pairwise_cons.mpr ⟨?_, ?_⟩
          · intro z hz
            rcases mem_mergeFuel n (x :: xs) ys z hz with h2 | h2
            · rcases List.mem_cons.mp h2 with rfl | h3
              · exact hyx
              · exact Nat.le_trans (hx1 z h3) hyx
            · exact hy1 z h2
          · exact ih (x :: xs) ys (by simp_all; omega) hxv
              (fun p hp => hyv p (List.mem_cons_of_mem _ hp)) hx hy2

/-- Merge sort with the date comparator produces a list that is
non-increasing in date key, provided every element has a valid date. -/
lemma pairwise_sortFuel :
    ∀ (n : Nat) (l : List BlogPost), l.length ≤ n →
      (∀ p ∈ l, hasValidDate p = true) →
      (sortFuel comparePosts n l).Pairwise (fun a b => dateKey b ≤ dateKey a) := by
  intro n
  induction n with
  | zero =>
    intro l hlen _
    have hl : l = [] := by cases l <;> simp_all
    subst hl
    simp [sortFuel]
  | succ n ih =>
    intro l hlen hv
    cases l with
    | nil => simp [sortFuel]
    | cons x xs =>
      cases xs with
      | nil => simp [sortFuel]
      | cons y rest =>
        simp only [sortFuel, jsMergeBy]
        have hlen2 : rest.length + 2 ≤ n + 1 := by
          simpa using hlen
        have htake : ((x :: y :: rest).take ((rest.length + 2) / 2)).length ≤ n := by
          simp only [List.length_take, List.length_cons]
          omega
        have hdrop : ((x :: y :: rest).drop ((rest.length + 2) / 2)).length ≤ n := by
          simp only [List.length_drop, List.length_cons]
          omega
        apply pairwise_mergeFuel _ _ _ (Nat.le_refl _)
        · intro p hp
          exact hv p (List.take_subset _ _ (mem_sortFuel _ _ _ hp))
        · intro p hp
          exact hv p (List.drop_subset _ _ (mem_sortFuel _ _ _ hp))
        · exact ih _ htake (fun p hp => hv p (List.take_subset _ _ hp))
        · exact ih _ hdrop (fun p hp => hv p (List.drop_subset _ _ hp))

/-- The listing's sorted collection is non-increasing in date key whenever all
posts carry valid dates. -/
lemma sortPosts_pairwise (posts : List BlogPost)
    (hv : ∀ p ∈ posts, hasValidDate p = true) :
    (sortPosts posts).Pairwise (fun a b => dateKey b ≤ dateKey a) :=
  pairwise_sortFuel posts.length posts (Nat.le_refl _) hv


/-- Unfolding: a lone separator character splits into two empty pieces. -/
lemma splitRuns_sep_nil {p : Char → Bool} {c : Char} (h1 : p c = true) :
    splitRuns p [c] = [[], []] := by
  rw [splitRuns]
  simp [h1]

/-- Unfolding: two adjacent separator characters belong to the same run. -/
lemma splitRuns_sep_sep {p : Char → Bool} {c c2 : Char} {rest : List Char}
    (h1 : p c = true) (h2 : p c2 = true) :
    splitRuns p (c :: c2 :: rest) = splitRuns p (c2 :: rest) := by
  rw [splitRuns]
  simp [h1, h2]

/-- Unfolding: a separator followed by a non-separator ends a run, producing
an empty piece at the front. -/
lemma splitRuns_sep_nonsep {p : Char → Bool} {c c2 : Char} {rest : List Char}
    (h1 : p c = true) (h2 : p c2 = false) :
    splitRuns p (c :: c2 :: rest) = [] :: splitRuns p (c2 :: rest) := by
  rw [splitRuns]
  simp [h1, h2]

/-- Unfolding: a non-separator character joins the head piece. -/
lemma splitRuns_nonsep {p : Char → Bool} {c : Char} {cs : List Char}
    (h1 : p c = false) :
    splitRuns p (c :: cs) = consHead c (splitRuns p cs) := by
  rw [splitRuns.eq_def]
  simp [h1]

/-- A split never produces an empty list of pieces. -/
lemma splitRuns_ne_nil (p : Char → Bool) : ∀ l : List Char, splitRuns p l ≠ [] := by
  intro l
  induction l with
  | nil => simp [splitRuns]
  | cons c cs ih =>
    cases cs with
    | nil =>
      cases hc : p c
      · rw [splitRuns_nonsep hc]
        cases h : splitRuns p [] <;> simp [consHead]
      · rw [splitRuns_sep_nil hc]
        simp
    | cons c2 rest =>
      cases hc : p c
      · rw [splitRuns_nonsep hc]
        cases h : splitRuns p (c2 :: rest) <;> simp [consHead]
      · cases hc2 : p c2
        · rw [splitRuns_sep_nonsep hc hc2]
          simp
        · rw [splitRuns_sep_sep hc hc2]
          exact ih

/-- Joining after prepending a character to the head piece prepends it to the
joined result. -/
lemma joinWith_consHead (sep : List Char) (c : Char) (h : List Char)
    (t : List (List Char)) :
    joinWith sep ((c :: h) :: t) = c :: joinWith sep (h :: t) := by
  cases t with
  | nil => simp [joinWith]
  | cons t1 t2 => simp [joinWith]

/-- An empty head piece contributes exactly one separator copy. -/
lemma joinWith_nil_cons (sep : List Char) (h : List Char) (t : List (List Char)) :
    joinWith sep ([] :: h :: t) = sep ++ joinWith sep (h :: t) := by
  simp [joinWith]

/-- Rejoining the hyphen runs with a single hyphen is the same operation as
collapsing each run of two or more hyphens. -/
lemma joinWith_splitRuns_hyphen :
    ∀ l : List Char, joinWith ['-'] (splitRuns isHyphen l) = collapseDoubleHyphens l := by
  intro l
  induction l with
  | nil => rfl
  | cons c cs ih =>
    cases hc : isHyphen c with
    | true =>
      have hcEq : c = '-' := by simpa [isHyphen] using hc
      subst hcEq
      cases cs with
      | nil =>
        rw [splitRuns_sep_nil hc]
        rfl
      | cons c2 rest =>
        cases hc2 : isHyphen c2 with
        | true =>
          have hc2Eq : c2 = '-' := by simpa [isHyphen] using hc2
          subst hc2Eq
          rw [splitRuns_sep_sep hc hc2, ih]
          simp [collapseDoubleHyphens]
        | false =>
          have hc2Ne : ¬ c2 = '-' := by simpa [isHyphen] using hc2
          rw [splitRuns_sep_nonsep hc hc2]
          rcases hne : splitRuns isHyphen (c2 :: rest) with _ | ⟨h1, t1⟩
          · exact absurd hne (splitRuns_ne_nil _ _)
          · rw [joinWith_nil_cons]
            rw [← hne]
            rw [ih]
            simp [collapseDoubleHyphens, hc2Ne]
    | false =>
      have hcNe : ¬ c = '-' := by simpa [isHyphen] using hc
      rw [splitRuns_nonsep hc]
      rcases hne : splitRuns isHyphen cs with _ | ⟨h1, t1⟩
      · exact absurd hne (splitRuns_ne_nil _ _)
      · simp only [consHead]
        rw [joinWith_consHead]
        rw [← hne]
        rw [ih]
        cases cs with
        | nil => simp [collapseDoubleHyphens]
        | cons c2 rest => simp [collapseDoubleHyphens, hcNe]

/-- If every character of a string is whitespace, trimming leaves nothing. -/
lemma jsTrim_of_all_space {q : String} (h : ∀ c ∈ q.data, jsIsSpace c = true) :
    jsTrim q = "" := by
  unfold jsTrim jsTrimChars
  have h1 : q.data.dropWhile jsIsSpace = [] :=
    List.dropWhile_eq_nil_iff.mpr (by simpa using h)
  rw [h1]
  rfl

/-- A (possibly empty) pattern list is a prefix of itself followed by anything. -/
lemma isPrefixOf_append_self (l t : List Char) : l.isPrefixOf (l ++ t) = true := by
  simp [List.isPrefixOf_iff_prefix]

/-- `replace(pat, rep)` on a string that starts with the (non-empty) pattern
replaces exactly that leading occurrence. -/
lemma replaceFirst_exact (pat rep t : List Char) (hne : pat ≠ []) :
    replaceFirst pat rep (pat ++ t) = rep ++ t := by
  rcases pat with _ | ⟨p, ps⟩
  · exact absurd rfl hne
  · rw [List.cons_append, replaceFirst]
    rw [← List.cons_append, if_pos (isPrefixOf_append_self _ _)]
    rw [List.drop_left]

/-- A string starting with `#` does not start with `/`. -/
lemma hash_not_slash {s : String} (h : jsStartsWith "#" s = true) :
    jsStartsWith "/" s = false := by
  unfold jsStartsWith at h ⊢
  rw [show "#".data = ['#'] from rfl] at h
  rw [show "/".data = ['/'] from rfl]
  cases hd : s.data with
  | nil => rw [hd] at h; simp [List.isPrefixOf] at h
  | cons c cs =>
    rw [hd] at h
    simp only [List.isPrefixOf, Bool.and_eq_true, beq_iff_eq] at h
    rcases h with ⟨h1, _⟩
    subst h1
    simp [List.isPrefixOf]

/-- C1: a post passes the search filter exactly when every lowercased
whitespace-delimited query word (empty words dropped) is an exact element of
the post's lowercased alphanumeric-delimited title word list; in particular
query `"white"` matches the title `"White House Rules"` and the proper
substring `"whit"` does not (whole-word matching only). -/
theorem search_whole_word :
    (∀ (query : String) (post : BlogPost),
        postMatches query post = true ↔
          ∀ w ∈ queryWords query, w ∈ titleWords post.metadata.title)
    ∧ postMatches "white" whiteHousePost = true
    ∧ postMatches "whit" whiteHousePost = false := by
  refine ⟨?_, by decide, by decide⟩
  intro query post
  simp [postMatches, List.all_eq_true]

/-- Witness for C1 at a concrete input: the two-word query `"white house"`
matches the example title. -/
theorem search_whole_word_witness :
    postMatches "white house" whiteHousePost = true :=
  (search_whole_word.1 "white house" whiteHousePost).mpr (by decide)

/-- C4: an empty or whitespace-only query yields an empty result list, no
matter which posts were fetched. -/
theorem empty_query_no_results (query : String) (posts : List BlogPost)
    (h : ∀ c ∈ query.data, jsIsSpace c = true) :
    filterPosts query posts = [] := by
  unfold filterPosts
  rw [jsTrim_of_all_space h]
  simp

/-- Witness for C4: a whitespace-only query against a non-empty collection. -/
theorem empty_query_no_results_witness :
    filterPosts "   " [datasetPost, modelPost] = [] :=
  empty_query_no_results "   " [datasetPost, modelPost] (by decide)

/-- C7: a missing or empty summary renders as the literal placeholder
`'No summary available.'` in both the listing card and the search card
(rendering is a total function here, so it cannot throw). -/
theorem missing_summary_fallback (p : BlogPost)
    (h : p.metadata.summary = none ∨ p.metadata.summary = some "") :
    (renderListingCard p).summaryText = "No summary available."
    ∧ (renderSearchCard p).summaryText = "No summary available." := by
  unfold renderListingCard renderSearchCard jsOrElse
  rcases h with h | h <;> simp [h]

/-- Witness for C7: the post with no summary field renders the placeholder. -/
theorem missing_summary_fallback_witness :
    (renderListingCard noSummaryPost).summaryText = "No summary available."
    ∧ (renderSearchCard noSummaryPost).summaryText = "No summary available." :=
  missing_summary_fallback noSummaryPost (Or.inl rfl)

/-- C8: when the one-shot fetch fails, no handler runs (the state is exactly
the initial state, and `SearchState` has no error field to set), `allPosts`
stays empty, and every subsequent query produces an empty result list. -/
theorem fetch_error_silent :
    applyFetch initialSearchState FetchResult.err = initialSearchState
    ∧ (applyFetch initialSearchState FetchResult.err).allPosts = []
    ∧ (∀ q : String,
        (setQuery (applyFetch initialSearchState FetchResult.err) q).filteredPosts = []) := by
  refine ⟨rfl, rfl, ?_⟩
  intro q
  show filterPosts q [] = []
  unfold filterPosts
  split <;> simp

/-- Witness for C8: a concrete query typed after a failed fetch shows nothing. -/
theorem fetch_error_silent_witness :
    (setQuery (applyFetch initialSearchState FetchResult.err) "pytorch").filteredPosts = [] :=
  fetch_error_silent.2.2 "pytorch"

/-- C9: the recomputed `filteredPosts` is an order-preserving subsequence of
`allPosts`, contains exactly the posts satisfying the view's match predicate
(the empty-query guard plus the whole-word matcher), and recomputation leaves
`allPosts` (and the query) unchanged. -/
theorem filtered_posts_invariant (query : String) (posts : List BlogPost) :
    List.Sublist (filterPosts query posts) posts
    ∧ (∀ p : BlogPost,
        p ∈ filterPosts query posts ↔ p ∈ posts ∧ searchIncluded query p = true)
    ∧ (∀ s : SearchState,
        (recomputeFiltered s).allPosts = s.allPosts ∧ (recomputeFiltered s).query = s.query) := by
  refine ⟨?_, ?_, fun s => ⟨rfl, rfl⟩⟩
  · unfold filterPosts
    split
    · exact List.nil_sublist _
    · exact List.filter_sublist _
  · intro p
    unfold filterPosts searchIncluded
    by_cases hq : jsTrim query = "" <;> simp [hq, List.mem_filter]

/-- Witness for C9: sublist fact at a concrete query and collection. -/
theorem filtered_posts_invariant_witness :
    List.Sublist (filterPosts "pytorch" [datasetPost, modelPost]) [datasetPost, modelPost] :=
  (filtered_posts_invariant "pytorch" [datasetPost, modelPost]).1

/-- C2: in the listing's display order, a later card never carries a strictly
later date than an earlier card — equivalently, if post `A`'s `publishedAt` is
strictly after post `B`'s, `A` appears before `B`. Stated for collections in
which every post has a parseable date (true of the whole content store); an
unparseable date compares as `NaN` in JavaScript and voids the guarantee. -/
theorem listing_date_order (posts : List BlogPost)
    (hv : ∀ p ∈ posts, hasValidDate p = true)
    (i j : Nat) (hij : i < j) (hj : j < (sortPosts posts).length) :
    dateKey ((sortPosts posts).get ⟨j, hj⟩) ≤
      dateKey ((sortPosts posts).get ⟨i, Nat.lt_trans hij hj⟩) := by
  have hp := sortPosts_pairwise posts hv
  rw [List.pairwise_iff_get] at hp
  exact hp ⟨i, Nat.lt_trans hij hj⟩ ⟨j, hj⟩ hij

/-- Witness for C2: sorting the two real posts puts the newer one first. -/
theorem listing_date_order_witness :
    dateKey ((sortPosts [datasetPost, modelPost]).get ⟨1, by decide⟩) ≤
      dateKey ((sortPosts [datasetPost, modelPost]).get ⟨0, by decide⟩) :=
  listing_date_order [datasetPost, modelPost] (by decide) 0 1 (by decide) (by decide)

/-- C5: the comparator returns `-1` exactly when the first post's date is
strictly later, returns `1` on every non-after pair (equal or earlier dates),
and never returns `0`. -/
theorem comparator_strict_after (a b : BlogPost)
    (ha : hasValidDate a = true) (hb : hasValidDate b = true) :
    (comparePosts a b = -1 ↔ dateKey b < dateKey a)
    ∧ (¬ dateKey b < dateKey a → comparePosts a b = 1)
    ∧ comparePosts a b ≠ 0 := by
  have hiff := publishedAfter_valid ha hb
  unfold comparePosts
  refine ⟨?_, ?_, ?_⟩
  · cases hp : publishedAfter a b <;> simp_all
  · intro hlt
    cases hp : publishedAfter a b <;> simp_all
  · cases hp : publishedAfter a b <;> simp

/-- Witness for C5 at the two real posts (the second was published later). -/
theorem comparator_strict_after_witness :
    (comparePosts modelPost datasetPost = -1 ↔ dateKey datasetPost < dateKey modelPost)
    ∧ (¬ dateKey datasetPost < dateKey modelPost → comparePosts modelPost datasetPost = 1)
    ∧ comparePosts modelPost datasetPost ≠ 0 :=
  comparator_strict_after modelPost datasetPost (by decide) (by decide)

/-- C3: `slugify` is exactly the specification's pipeline — lowercase, trim,
whitespace runs to `-`, `&` to `-and-`, non-word/non-hyphen characters
deleted, runs of two or more hyphens collapsed — and on the worked example it
returns `understanding-pytorch-graphs-and-autograd`. -/
theorem slugify_matches_spec :
    (∀ str : String, slugify str = slugifySpec str)
    ∧ slugify "Understanding PyTorch: Graphs & Autograd" =
        "understanding-pytorch-graphs-and-autograd" := by
  constructor
  · intro str
    simp only [slugify, slugifySpec, slugifyChars, slugifySpecChars]
    rw [joinWith_splitRuns_hyphen]
  · decide

/-- Witness for C3: the two pipeline formulations agree on another input. -/
theorem slugify_matches_spec_witness :
    slugify "A & B -- C" = slugifySpec "A & B -- C" :=
  slugify_matches_spec.1 "A & B -- C"

/-- C6: a link whose href starts with `/` renders as a client-side `Link`, a
href starting with `#` renders as a plain in-page anchor, and every other href
renders with `target="_blank"` and `rel="noopener noreferrer"`. -/
theorem customLink_rendering (href : String) :
    (jsStartsWith "/" href = true →
      renderCustomLink href = { kind := .clientNav, target := none, rel := none })
    ∧ (jsStartsWith "#" href = true →
      renderCustomLink href = { kind := .inPageAnchor, target := none, rel := none })
    ∧ (jsStartsWith "/" href = false → jsStartsWith "#" href = false →
      renderCustomLink href =
        { kind := .newWindow, target := some "_blank", rel := some "noopener noreferrer" }) := by
  refine ⟨?_, ?_, ?_⟩
  · intro h
    unfold renderCustomLink
    rw [if_pos h]
  · intro h
    have h2 := hash_not_slash h
    unfold renderCustomLink
    rw [if_neg (by simp [h2]), if_pos h]
  · intro h1 h2
    unfold renderCustomLink
    rw [if_neg (by simp [h1]), if_neg (by simp [h2])]

/-- Witness for C6: one href of each kind. -/
theorem customLink_rendering_witness :
    renderCustomLink "/blog" = { kind := .clientNav, target := none, rel := none }
    ∧ renderCustomLink "#section" = { kind := .inPageAnchor, target := none, rel := none }
    ∧ renderCustomLink "https://example.com" =
        { kind := .newWindow, target := some "_blank", rel := some "noopener noreferrer" } :=
  ⟨(customLink_rendering "/blog").1 (by decide),
   (customLink_rendering "#section").2.1 (by decide),
   (customLink_rendering "https://example.com").2.2 (by decide) (by decide)⟩

/-- C10 counterexample: for the present-but-empty className `""` the code
falls back to `'python'` (the empty string is falsy in `className ? ... :`),
while the claim's reading — the className with its `language-` leading
occurrence removed — yields `""`. -/
theorem code_language_empty_class_counterexample :
    codeLanguage (some "") ≠ claimLanguage (some "")
    ∧ codeLanguage (some "") = "python"
    ∧ claimLanguage (some "") = "" := by
  refine ⟨by decide, rfl, rfl⟩

/-- C10 (amended): for a className of the form `language-X` the language tag
is `X`; for any non-empty className it is the className with the first
occurrence of `'language-'` removed; a missing or empty className falls back
to the literal `'python'`; and the highlighter is always invoked with
`ignoreIllegals: true`, so illegal syntax is skipped rather than raised. -/
theorem code_language_amended :
    (∀ rest : String, codeLanguage (some ("language-" ++ rest)) = rest)
    ∧ (∀ s : String, s ≠ "" →
        codeLanguage (some s) = String.mk (replaceFirst "language-".data [] s.data))
    ∧ codeLanguage none = "python"
    ∧ codeLanguage (some "") = "python"
    ∧ (∀ cn : Option String, (codeHighlightCall cn).ignoreIllegals = true) := by
  refine ⟨?_, ?_, rfl, rfl, fun cn => rfl⟩
  · intro rest
    have hne : ¬ ("language-" ++ rest) = "" := by
      intro hcon
      have h2 := congrArg String.data hcon
      rw [String.data_append] at h2
      rw [show ("" : String).data = [] from rfl] at h2
      rcases List.append_eq_nil.mp h2 with ⟨h3, _⟩
      exact absurd h3 (by decide)
    show (if ("language-" ++ rest) = "" then "python"
        else String.mk (replaceFirst "language-".data [] ("language-" ++ rest).data)) = rest
    rw [if_neg hne]
    rw [String.data_append]
    rw [replaceFirst_exact _ _ _ (by decide)]
    rw [List.nil_append]
  · intro s hs
    show (if s = "" then "python"
        else String.mk (replaceFirst "language-".data [] s.data)) =
      String.mk (replaceFirst "language-".data [] s.data)
    rw [if_neg hs]

/-- Witness for C10's amended claim at concrete classNames. -/
theorem code_language_amended_witness :
    codeLanguage (some ("language-" ++ "cpp")) = "cpp"
    ∧ codeLanguage (some "xlanguage-js") =
        String.mk (replaceFirst "language-".data [] "xlanguage-js".data) :=
  ⟨code_language_amended.1 "cpp", code_language_amended.2.1 "xlanguage-js" (by decide)⟩
